import Mathlib

/- A shallow embedding of the runtime core of the `thunx` / `tryrun` repository:
the Provider registry (src/packages/tryrun/src/provider.ts), the Context
resolution environment (src/context.ts), the Result type
(src/packages/tryrun/src/result.ts), the `defect` error wrapper
(src/packages/tryrun/src/errors.ts), and the run-start requirement check of
`Shell.run` (src/packages/tryrun/src/shell.ts).

Tokens and TypedErrors are nominal string-keyed identities; every Provider and
Context operation in the source consults only `token.key`, so tokens are
embedded as their string keys. -/

namespace Thunx

/- Association-list primitives mirroring the JavaScript `Map` operations used
by the source. `Map.set` replaces the value of an existing key in place
(keeping insertion order) and appends a fresh key at the end; `Map.get`
returns the unique entry for a key; `Map.delete` removes it. -/

def alookup {α : Type} : List (String × α) → String → Option α
  | [], _ => none
  | (k, v) :: rest, j => if k = j then some v else alookup rest j

def aset {α : Type} : List (String × α) → String → α → List (String × α)
  | [], j, v => [(j, v)]
  | (k, w) :: rest, j, v => if k = j then (j, v) :: rest else (k, w) :: aset rest j v

def adel {α : Type} : List (String × α) → String → List (String × α)
  | [], _ => []
  | (k, w) :: rest, j => if k = j then adel rest j else (k, w) :: adel rest j

/- Membership, removal and occurrence count for the `Set<string>` of
in-progress resolutions and for invocation traces. -/

def hasKey (j : String) : List String → Bool
  | [] => false
  | k :: rest => if k = j then true else hasKey j rest

def removeKey (j : String) : List String → List String
  | [] => []
  | k :: rest => if k = j then removeKey j rest else k :: removeKey j rest

def countKey (j : String) : List String → Nat
  | [] => 0
  | k :: rest => (if k = j then 1 else 0) + countKey j rest

/- ### Provider (src/packages/tryrun/src/provider.ts)

`Provider<C>` holds `_factories: Map<string, TokenFactory>`. The factory type
is a parameter `α` here: the Provider operations in the source never inspect
or invoke a factory, they only move entries between maps, and keeping `α`
abstract lets that be stated as a theorem (`Provider.mapFac` naturality). -/

structure Provider (α : Type) where
  factories : List (String × α)

/-- `provide(token, factory)`: copy the map, set the key, wrap a new Provider. -/
def Provider.provide {α : Type} (p : Provider α) (key : String) (f : α) : Provider α :=
  ⟨aset p.factories key f⟩

/-- The underlying `this._factories.get(token.key)` lookup. -/
def Provider.find? {α : Type} (p : Provider α) (key : String) : Option α :=
  alookup p.factories key

def tokenNotProvidedMsg (key : String) : String :=
  "Token \x22" ++ key ++ "\x22 not provided"

/-- `Provider.get(token)`: return the factory, or throw
`Token "key" not provided` when the map has no entry. -/
def Provider.get {α : Type} (p : Provider α) (key : String) : Except String α :=
  match p.find? key with
  | some f => Except.ok f
  | none => Except.error (tokenNotProvidedMsg key)

/-- One step of `pick`: `const factory = this._factories.get(token.key);
if (factory) factories.set(token.key, factory)`. -/
def pickStep {α : Type} (p : Provider α) (acc : List (String × α)) (k : String) :
    List (String × α) :=
  match alookup p.factories k with
  | some f => aset acc k f
  | none => acc

/-- `Provider.pick(...tokens)`: start from an empty map and copy over, in
argument order, each requested key that has a factory (`if (factory)` in the
source: absent keys are skipped silently). -/
def Provider.pick {α : Type} (p : Provider α) (keys : List String) : Provider α :=
  ⟨keys.foldl (pickStep p) []⟩

/-- `Provider.omit(...tokens)`: copy the map and delete each requested key. -/
def Provider.omit {α : Type} (p : Provider α) (keys : List String) : Provider α :=
  ⟨keys.foldl adel p.factories⟩

/-- Rename every factory in place; used to state that the Provider mutators
never inspect or invoke factories. -/
def Provider.mapFac {α β : Type} (g : α → β) (p : Provider α) : Provider β :=
  ⟨p.factories.map (fun kv => (kv.1, g kv.2))⟩

/-- Modelled from the spec: `merge(a, b)` is named in spec sections 3 and 4.1
("unions bindings, later wins on collision") but no `merge` function exists in
src/packages/tryrun/src/provider.ts; this definition follows the spec's words:
the union of the two binding maps in which `b`'s factory wins on every key
bound in both. -/
def mergeStep {α : Type} (acc : List (String × α)) (kv : String × α) :
    List (String × α) :=
  aset acc kv.1 kv.2

def mergeP {α : Type} (a b : Provider α) : Provider α :=
  ⟨b.factories.foldl mergeStep a.factories⟩

/- ### Result (src/packages/tryrun/src/result.ts) -/

structure Success (T : Type) where
  value : T

structure Failure (E : Type) where
  error : E

/-- `Result<T, E> = Success<T> | Failure<E>`. -/
inductive Result (T E : Type) where
  | success (s : Success T)
  | failure (f : Failure E)

def Result.isSuccess {T E : Type} : Result T E → Bool
  | success _ => true
  | failure _ => false

def Result.isFailure {T E : Type} : Result T E → Bool
  | success _ => false
  | failure _ => true

/-- The `value` carried by a `Success`, if any. -/
def Result.valueOf {T E : Type} : Result T E → Option T
  | success s => some s.value
  | failure _ => none

/-- The `error` carried by a `Failure`, if any. -/
def Result.errorOf {T E : Type} : Result T E → Option E
  | success _ => none
  | failure f => some f.error

/- ### The defect wrapper (src/packages/tryrun/src/errors.ts)

JavaScript values as far as `defect` observes them. An `Error` object built by
`new Error(message, { cause })` — and every `TypedError` instance, whose
constructor calls `super(message, { cause })` — carries `message` and `cause`
as NON-enumerable own properties; the enumerable own properties (the `rest`
assigned by `Object.assign(this, rest)`) are listed separately in `props`.
A spread `{ ...error }` therefore copies only `props`. -/

inductive DVal where
  | vnum (n : Nat)
  | vstr (s : String)
  | verr (message : Option String) (cause : Option DVal) (props : List (String × DVal))

/-- The `error instanceof Error` test. -/
def DVal.isError : DVal → Bool
  | verr _ _ _ => true
  | _ => false

/-- A constructed `Defect` (a `TypedError("Defect")` instance): its
non-enumerable `message` and `cause` slots and its enumerable `rest` props. -/
structure DefectVal where
  message : Option DVal
  cause : Option DVal
  props : List (String × DVal)

/-- The `TypedError` constructor body applied to a shape object:
`const { message, cause, ...rest } = shape; super(message, { cause });
Object.assign(this, rest)`. -/
def typedErrorMk (shape : List (String × DVal)) : DefectVal :=
  { message := alookup shape "message"
    cause := alookup shape "cause"
    props := (shape.filter (fun kv => kv.1 ≠ "message")).filter (fun kv => kv.1 ≠ "cause") }

/-- `defect(error)`: if `error instanceof Error`, throw
`new Defect({ ...error })` (spread of own enumerable properties only);
otherwise throw `new Defect({ message: "Unexpected error", cause: error })`. -/
def defect : DVal → DefectVal
  | DVal.verr _ _ props => typedErrorMk props
  | x => typedErrorMk [("message", DVal.vstr "Unexpected error"), ("cause", x)]

/- ### Run-start requirement check (src/packages/tryrun/src/shell.ts)

Modelled from the spec: `Shell.run` in the source is an unimplemented stub
(its body only throws `Shell.run not implemented`), so the dynamic
requirement-emptiness check is modelled from spec sections 3 and 6: "Running a
node with a non-empty unresolved requirement set fails fast, before any
computation executes, naming the missing identities." A program is its
unresolved requirement keys plus its computation; `runModel` returns the
outcome together with a flag recording whether the computation was executed. -/

structure ProgramModel (T : Type) where
  requirements : List String
  compute : T

inductive RunOutcome (T : Type) where
  | ok (value : T)
  | missingTokens (keys : List String)

/-- Modelled from the spec: run a program; with a non-empty requirement set it
fails with the list of missing identities and never touches the computation
(second component `false`), otherwise it executes the computation. -/
def runModel {T : Type} (p : ProgramModel T) : RunOutcome T × Bool :=
  match p.requirements with
  | [] => (RunOutcome.ok p.compute, true)
  | _ :: _ => (RunOutcome.missingTokens p.requirements, false)

/- ### Context (src/context.ts)

`Context` owns the Provider, a mutable `_cache: Map<string, unknown>` and a
mutable `_resolving: Set<string>`. A factory is either a direct value or a
function of the context; a function factory is arbitrary user code that may
call `ctx.get` recursively, embedded here as a small body language: return a
value, throw a value, or get a token and continue with its instance.

`Context.get` is synchronous in the source (JavaScript is single-threaded and
the method never awaits), so every interleaving of callers within one run is a
sequence of atomic `get` calls; the embedding is the corresponding state
transformer. Recursion through user-supplied continuations is paid for with a
fuel parameter: `none` means the fuel ran out, never a behaviour of the code.
Each call also returns the trace of factory invocations (the keys whose
function factory was entered), used to count how often a factory runs. -/

inductive JsVal where
  | vstr (s : String)
  | vnat (n : Nat)
deriving DecidableEq

inductive FBody where
  | ret (v : JsVal)
  | thr (v : JsVal)
  | getTok (key : String) (cont : JsVal → FBody)

inductive Factory where
  | val (v : JsVal)
  | fn (body : FBody)

structure CtxState where
  provider : Provider Factory
  cache : List (String × JsVal)
  resolving : List String

/-- Errors thrown by `Context.get`: the two resolution errors of the source
(each a plain `Error` with the quoted message) and a value thrown by a
factory body. -/
inductive ResErr where
  | circular (key : String)
  | notProvided (key : String)
  | thrown (v : JsVal)
deriving DecidableEq

/-- The `message` of the `Error` the source throws for each resolution error. -/
def ResErr.msg : ResErr → Option String
  | circular key => some ("Circular dependency detected: \x22" ++ key ++ "\x22")
  | notProvided key => some (tokenNotProvidedMsg key)
  | thrown _ => none

/-- Remove a key from the in-progress set (the `finally` clause's
`this._resolving.delete(key)`). -/
def delRes (st : CtxState) (key : String) : CtxState :=
  { st with resolving := removeKey key st.resolving }

mutual

/-- `Context.get(token)` of src/context.ts: cache hit returns the cached
instance; a key already in `_resolving` throws the circular-dependency error;
otherwise the key is marked as resolving, the factory is looked up (absent:
`Token "key" not provided`), resolved, the instance cached, and the
`finally` clause unmarks the key on every exit path. -/
def ctxGet : Nat → CtxState → String → Option (Except ResErr JsVal × CtxState × List String)
  | 0, _, _ => none
  | fuel + 1, st, key =>
    match alookup st.cache key with
    | some v => some (Except.ok v, st, [])
    | none =>
      if hasKey key st.resolving then
        some (Except.error (ResErr.circular key), st, [])
      else
        let st1 : CtxState := { st with resolving := key :: st.resolving }
        match alookup st.provider.factories key with
        | none => some (Except.error (ResErr.notProvided key), delRes st1 key, [])
        | some (Factory.val v) =>
          some (Except.ok v, delRes { st1 with cache := aset st1.cache key v } key, [])
        | some (Factory.fn body) =>
          match runBody fuel st1 body with
          | none => none
          | some (Except.ok v, st2, tr) =>
            some (Except.ok v, delRes { st2 with cache := aset st2.cache key v } key, key :: tr)
          | some (Except.error e, st2, tr) =>
            some (Except.error e, delRes st2 key, key :: tr)

/-- Run a function factory's body against the context: exceptions from nested
`ctx.get` calls propagate, a `getTok` binds the resolved instance in its
continuation, and traces concatenate in program order. -/
def runBody : Nat → CtxState → FBody → Option (Except ResErr JsVal × CtxState × List String)
  | 0, _, _ => none
  | _ + 1, st, FBody.ret v => some (Except.ok v, st, [])
  | _ + 1, st, FBody.thr v => some (Except.error (ResErr.thrown v), st, [])
  | fuel + 1, st, FBody.getTok key cont =>
    match ctxGet fuel st key with
    | none => none
    | some (Except.error e, st1, tr) => some (Except.error e, st1, tr)
    | some (Except.ok v, st1, tr) =>
      match runBody fuel st1 (cont v) with
      | none => none
      | some (r, st2, tr2) => some (r, st2, tr ++ tr2)

end

/- Concrete contexts used to evaluate the theorems below on closed inputs. -/

def provC1 : Provider Factory := ⟨[("A", Factory.fn (FBody.ret (JsVal.vnat 7)))]⟩

def stC1 : CtxState := ⟨provC1, [], []⟩

def stC1' : CtxState := ⟨provC1, [("A", JsVal.vnat 7)], []⟩

def provSelf : Provider Factory :=
  ⟨[("A", Factory.fn (FBody.getTok "A" (fun v => FBody.ret v)))]⟩

def provMutual : Provider Factory :=
  ⟨[("A", Factory.fn (FBody.getTok "B" (fun v => FBody.ret v))),
    ("B", Factory.fn (FBody.getTok "A" (fun v => FBody.ret v)))]⟩

def freshCtx (p : Provider Factory) : CtxState := ⟨p, [], []⟩

def stEmpty : CtxState := ⟨⟨[]⟩, [], []⟩

/- ### Association-list and set lemmas -/

theorem alookup_aset_self {α : Type} (l : List (String × α)) (j : String) (v : α) :
    alookup (aset l j v) j = some v := by
  induction l with
  | nil => simp [aset, alookup]
  | cons kv rest ih =>
    obtain ⟨k, w⟩ := kv
    by_cases h : k = j
    · simp [aset, h, alookup]
    · simp [aset, h, alookup, ih]

theorem alookup_aset_ne {α : Type} (l : List (String × α)) (i j : String) (v : α)
    (h : i ≠ j) : alookup (aset l j v) i = alookup l i := by
  induction l with
  | nil => simp [aset, alookup, Ne.symm h]
  | cons kv rest ih =>
    obtain ⟨k, w⟩ := kv
    by_cases hk : k = j
    · subst hk
      simp [aset, alookup, Ne.symm h]
    · simp [aset, hk, alookup, ih]

theorem alookup_adel_ne {α : Type} (l : List (String × α)) (i j : String)
    (h : i ≠ j) : alookup (adel l j) i = alookup l i := by
  induction l with
  | nil => simp [adel]
  | cons kv rest ih =>
    obtain ⟨k, w⟩ := kv
    by_cases hk : k = j
    · subst hk
      simp [adel, alookup, Ne.symm h, ih]
    · simp [adel, hk, alookup, ih]

theorem alookup_adel_self {α : Type} (l : List (String × α)) (j : String) :
    alookup (adel l j) j = none := by
  induction l with
  | nil => simp [adel, alookup]
  | cons kv rest ih =>
    obtain ⟨k, w⟩ := kv
    by_cases hk : k = j
    · simp [adel, hk, ih]
    · simp [adel, hk, alookup, hk, ih]

theorem removeKey_of_hasKey_false (j : String) (l : List String)
    (h : hasKey j l = false) : removeKey j l = l := by
  induction l with
  | nil => rfl
  | cons k rest ih =>
    by_cases hk : k = j
    · simp [hasKey, hk] at h
    · simp [hasKey, hk] at h
      simp [removeKey, hk, ih h]

theorem countKey_append (j : String) (a b : List String) :
    countKey j (a ++ b) = countKey j a + countKey j b := by
  induction a with
  | nil => simp [countKey]
  | cons k rest ih => simp [countKey, ih]; ring

theorem hasKey_cons_self (j : String) (l : List String) :
    hasKey j (j :: l) = true := by
  simp [hasKey]

theorem hasKey_cons_of (j k : String) (l : List String) (h : hasKey j l = true) :
    hasKey j (k :: l) = true := by
  by_cases hk : k = j <;> simp [hasKey, hk, h]

/- ### State discipline of `Context.get`

Every terminating run restores the in-progress set (the `finally` clause),
never changes the provider, and — for every key `j` that is in-progress when
the run starts — never invokes `j`'s factory and never changes `j`'s cache
entry (any nested `get(j)` stops at the circular-dependency check first). -/

theorem state_discipline :
    ∀ fuel : Nat,
      (∀ st key r st' tr, ctxGet fuel st key = some (r, st', tr) →
          st'.provider = st.provider ∧ st'.resolving = st.resolving ∧
          ∀ j, hasKey j st.resolving = true →
            countKey j tr = 0 ∧ alookup st'.cache j = alookup st.cache j) ∧
      (∀ st body r st' tr, runBody fuel st body = some (r, st', tr) →
          st'.provider = st.provider ∧ st'.resolving = st.resolving ∧
          ∀ j, hasKey j st.resolving = true →
            countKey j tr = 0 ∧ alookup st'.cache j = alookup st.cache j) := by
  intro fuel
  induction fuel with
  | zero =>
    constructor
    · intro st key r st' tr h
      simp [ctxGet] at h
    · intro st body r st' tr h
      simp [runBody] at h
  | succ fuel ih =>
    obtain ⟨ihG, ihB⟩ := ih
    constructor
    · intro st key r st' tr h
      simp only [ctxGet] at h
      cases hcache : alookup st.cache key with
      | some v =>
        simp [hcache] at h
        obtain ⟨rfl, rfl, rfl⟩ := h
        exact ⟨rfl, rfl, fun j hj => ⟨rfl, rfl⟩⟩
      | none =>
        simp only [hcache] at h
        cases hres : hasKey key st.resolving with
        | true =>
          simp [hres] at h
          obtain ⟨rfl, rfl, rfl⟩ := h
          exact ⟨rfl, rfl, fun j hj => ⟨rfl, rfl⟩⟩
        | false =>
          simp only [hres, Bool.false_eq_true, if_false] at h
          cases hfac : alookup st.provider.factories key with
          | none =>
            simp [hfac, delRes] at h
            obtain ⟨rfl, rfl, rfl⟩ := h
            refine ⟨rfl, ?_, fun j hj => ⟨rfl, rfl⟩⟩
            simp [removeKey, removeKey_of_hasKey_false key st.resolving hres]
          | some f =>
            cases f with
            | val v =>
              simp [hfac, delRes] at h
              obtain ⟨rfl, rfl, rfl⟩ := h
              refine ⟨rfl, ?_, fun j hj => ⟨rfl, ?_⟩⟩
              · simp [removeKey, removeKey_of_hasKey_false key st.resolving hres]
              · have hne : j ≠ key := by
                  intro hjk
                  rw [hjk, hres] at hj
                  exact Bool.noConfusion hj
                exact alookup_aset_ne st.cache j key v hne
            | fn body =>
              simp only [hfac] at h
              cases hrb : runBody fuel { st with resolving := key :: st.resolving } body with
              | none => simp [hrb] at h
              | some out =>
                obtain ⟨res, st2, trB⟩ := out
                obtain ⟨hp2, hr2, hj2⟩ := ihB _ _ _ _ _ hrb
                simp only [CtxState.resolving] at hr2
                cases res with
                | ok v =>
                  simp [hrb, delRes] at h
                  obtain ⟨rfl, rfl, rfl⟩ := h
                  refine ⟨hp2, ?_, fun j hj => ?_⟩
                  · simp [hr2, removeKey, removeKey_of_hasKey_false key st.resolving hres]
                  · have hne : j ≠ key := by
                      intro hjk
                      rw [hjk, hres] at hj
                      exact Bool.noConfusion hj
                    have hj2' := hj2 j (hasKey_cons_of j key st.resolving hj)
                    constructor
                    · simp [countKey, Ne.symm hne, hj2'.1]
                    · rw [alookup_aset_ne st2.cache j key v hne]
                      exact hj2'.2
                | error e =>
                  simp [hrb, delRes] at h
                  obtain ⟨rfl, rfl, rfl⟩ := h
                  refine ⟨hp2, ?_, fun j hj => ?_⟩
                  · simp [hr2, removeKey, removeKey_of_hasKey_false key st.resolving hres]
                  · have hne : j ≠ key := by
                      intro hjk
                      rw [hjk, hres] at hj
                      exact Bool.noConfusion hj
                    have hj2' := hj2 j (hasKey_cons_of j key st.resolving hj)
                    constructor
                    · simp [countKey, Ne.symm hne, hj2'.1]
                    · exact hj2'.2
    · intro st body r st' tr h
      cases body with
      | ret v =>
        simp [runBody] at h
        obtain ⟨rfl, rfl, rfl⟩ := h
        exact ⟨rfl, rfl, fun j hj => ⟨rfl, rfl⟩⟩
      | thr v =>
        simp [runBody] at h
        obtain ⟨rfl, rfl, rfl⟩ := h
        exact ⟨rfl, rfl, fun j hj => ⟨rfl, rfl⟩⟩
      | getTok key cont =>
        simp only [runBody] at h
        cases hg : ctxGet fuel st key with
        | none => simp [hg] at h
        | some out =>
          obtain ⟨res, st1, tr1⟩ := out
          cases res with
          | error e =>
            simp [hg] at h
            obtain ⟨rfl, rfl, rfl⟩ := h
            exact ihG _ _ _ _ _ hg
          | ok v =>
            simp only [hg] at h
            cases hb : runBody fuel st1 (cont v) with
            | none => simp [hb] at h
            | some out2 =>
              obtain ⟨r2, st2, tr2⟩ := out2
              simp [hb] at h
              obtain ⟨rfl, rfl, rfl⟩ := h
              obtain ⟨hp1, hr1, hj1⟩ := ihG _ _ _ _ _ hg
              obtain ⟨hp2, hr2, hj2⟩ := ihB _ _ _ _ _ hb
              refine ⟨hp2.trans hp1, hr2.trans hr1, fun j hj => ?_⟩
              have h1 := hj1 j hj
              have h2 := hj2 j (by rw [hr1]; exact hj)
              constructor
              · rw [countKey_append, h1.1, h2.1]
              · rw [h2.2, h1.2]

/-- A cache hit returns the cached instance, leaves the context untouched and
invokes nothing. -/
theorem ctxGet_cached (g : Nat) (st : CtxState) (key : String) (v : JsVal)
    (h : alookup st.cache key = some v) :
    ctxGet (g + 1) st key = some (Except.ok v, st, []) := by
  simp [ctxGet, h]

/-- C1: for every Context and every token bound in its Provider, the first
`Context.get(token)` invokes the token's factory and caches the result
(invocation trace counts the key exactly once), and every later get of that
token in the same Context returns the identical cached instance with no
factory invocation and no state change — the factory runs exactly once per
Context per token. (`Context.get` is synchronous in the source, so concurrent
callers within one run are a sequence of such atomic calls.) -/
theorem context_get_memoizes
    (fuel : Nat) (st : CtxState) (key : String) (body : FBody) (v : JsVal)
    (st' : CtxState) (tr : List String)
    (hcache : alookup st.cache key = none)
    (hres : hasKey key st.resolving = false)
    (hfac : alookup st.provider.factories key = some (Factory.fn body))
    (hrun : ctxGet fuel st key = some (Except.ok v, st', tr)) :
    countKey key tr = 1 ∧ alookup st'.cache key = some v ∧
    ∀ g : Nat, ctxGet (g + 1) st' key = some (Except.ok v, st', []) := by
  cases fuel with
  | zero => simp [ctxGet] at hrun
  | succ fuel =>
    simp only [ctxGet, hcache, hres, Bool.false_eq_true, if_false, hfac] at hrun
    cases hrb : runBody fuel { st with resolving := key :: st.resolving } body with
    | none => rw [hrb] at hrun; exact absurd hrun (by simp)
    | some out =>
      obtain ⟨res, st2, trB⟩ := out
      cases res with
      | error e => rw [hrb] at hrun; simp at hrun
      | ok w =>
        rw [hrb] at hrun
        simp [delRes] at hrun
        obtain ⟨rfl, rfl, rfl⟩ := hrun
        have hdisc := (state_discipline fuel).2 _ _ _ _ _ hrb
        have hkey := hdisc.2.2 key (hasKey_cons_self key st.resolving)
        refine ⟨?_, ?_, ?_⟩
        · simp [countKey, hkey.1]
        · exact alookup_aset_self st2.cache key w
        · intro g
          exact ctxGet_cached g _ key w (alookup_aset_self st2.cache key w)

/-- C1 witness: a Provider binding `A` to a function factory returning `7`;
the first get invokes the factory once and caches `7`; the next get returns
the same `7` from the same state with an empty invocation trace. -/
theorem context_get_memoizes_witness :
    countKey "A" ["A"] = 1 ∧ alookup stC1'.cache "A" = some (JsVal.vnat 7) ∧
    ctxGet 1 stC1' "A" = some (Except.ok (JsVal.vnat 7), stC1', []) := by
  have h := context_get_memoizes 2 stC1 "A" (FBody.ret (JsVal.vnat 7)) (JsVal.vnat 7)
    stC1' ["A"] rfl rfl rfl rfl
  exact ⟨h.1, h.2.1, h.2.2 0⟩

/-- C2: a self-referential factory (A's factory resolves A) and a mutual
cycle (A's factory resolves B, whose factory resolves A) both fail with the
circular-dependency error, whose thrown message names the token at which the
cycle closes: `Circular dependency detected: "A"`. -/
theorem context_get_circular_cycles :
    ctxGet 3 (freshCtx provSelf) "A" =
      some (Except.error (ResErr.circular "A"), freshCtx provSelf, ["A"]) ∧
    ctxGet 5 (freshCtx provMutual) "A" =
      some (Except.error (ResErr.circular "A"), freshCtx provMutual, ["A", "B"]) ∧
    (ResErr.circular "A").msg = some "Circular dependency detected: \x22A\x22" :=
  ⟨rfl, rfl, rfl⟩

/-- C9: a failed resolution (token not provided, factory threw, or a cycle)
is atomic: the cache still has no entry for the token, the token is no longer
in the in-progress set, and a subsequent get of the same token re-attempts
resolution — it can only report a circular dependency after actually
re-entering resolution (non-empty invocation trace), never spuriously from a
stale in-progress mark. -/
theorem context_get_failure_atomic
    (fuel : Nat) (st : CtxState) (key : String) (e : ResErr) (st' : CtxState) (tr : List String)
    (hcache : alookup st.cache key = none)
    (hres : hasKey key st.resolving = false)
    (hrun : ctxGet fuel st key = some (Except.error e, st', tr)) :
    alookup st'.cache key = none ∧ st'.resolving = st.resolving ∧
    ∀ g r st2 tr2, ctxGet (g + 1) st' key = some (r, st2, tr2) →
      r ≠ Except.error (ResErr.circular key) ∨ tr2 ≠ [] := by
  have main : alookup st'.cache key = none ∧ st'.resolving = st.resolving := by
    cases fuel with
    | zero => simp [ctxGet] at hrun
    | succ fuel =>
      simp only [ctxGet, hcache, hres, Bool.false_eq_true, if_false] at hrun
      cases hfac : alookup st.provider.factories key with
      | none =>
        simp only [hfac] at hrun
        simp [delRes] at hrun
        obtain ⟨rfl, rfl, rfl⟩ := hrun
        exact ⟨hcache, by
          simp [removeKey, removeKey_of_hasKey_false key st.resolving hres]⟩
      | some f =>
        cases f with
        | val v => simp only [hfac] at hrun; simp at hrun
        | fn body =>
          simp only [hfac] at hrun
          cases hrb : runBody fuel { st with resolving := key :: st.resolving } body with
          | none => rw [hrb] at hrun; exact absurd hrun (by simp)
          | some out =>
            obtain ⟨res, st2, trB⟩ := out
            cases res with
            | ok w => rw [hrb] at hrun; simp at hrun
            | error e2 =>
              rw [hrb] at hrun
              simp [delRes] at hrun
              obtain ⟨rfl, rfl, rfl⟩ := hrun
              have hdisc := (state_discipline fuel).2 _ _ _ _ _ hrb
              have hkey := hdisc.2.2 key (hasKey_cons_self key st.resolving)
              constructor
              · rw [hkey.2]
                exact hcache
              · rw [hdisc.2.1]
                simp [removeKey, removeKey_of_hasKey_false key st.resolving hres]
  refine ⟨main.1, main.2, ?_⟩
  intro g r st2 tr2 hg
  have h3 : hasKey key st'.resolving = false := by rw [main.2]; exact hres
  simp only [ctxGet, main.1, h3, Bool.false_eq_true, if_false] at hg
  cases hfac2 : alookup st'.provider.factories key with
  | none =>
    simp only [hfac2] at hg
    simp at hg
    obtain ⟨rfl, rfl, rfl⟩ := hg
    left
    simp
  | some f =>
    cases f with
    | val v =>
      simp only [hfac2] at hg
      simp at hg
      obtain ⟨rfl, rfl, rfl⟩ := hg
      left
      simp
    | fn body =>
      simp only [hfac2] at hg
      cases hrb2 : runBody g { st' with resolving := key :: st'.resolving } body with
      | none => rw [hrb2] at hg; exact absurd hg (by simp)
      | some out =>
        obtain ⟨res, stB, trB⟩ := out
        cases res with
        | ok w =>
          rw [hrb2] at hg
          simp at hg
          obtain ⟨rfl, rfl, rfl⟩ := hg
          left
          simp
        | error e2 =>
          rw [hrb2] at hg
          simp at hg
          obtain ⟨rfl, rfl, rfl⟩ := hg
          right
          simp

/-- C9 witness: on an empty Provider, getting `A` fails with the
not-provided error; the cache stays empty, `A` leaves the in-progress set,
and a retry does not spuriously report a circular dependency. -/
theorem context_get_failure_atomic_witness :
    alookup stEmpty.cache "A" = none ∧ stEmpty.resolving = stEmpty.resolving ∧
    (Except.error (ResErr.notProvided "A") ≠
        (Except.error (ResErr.circular "A") : Except ResErr JsVal) ∨
      ([] : List String) ≠ []) := by
  have h := context_get_failure_atomic 1 stEmpty "A" (ResErr.notProvided "A")
    stEmpty [] rfl rfl rfl
  exact ⟨h.1, rfl, h.2.2 0 _ _ _ rfl⟩

/- ### Map-algebra lemmas for the Provider operations -/

theorem alookup_map {α β : Type} (g : α → β) (l : List (String × α)) (j : String) :
    alookup (l.map (fun kv => (kv.1, g kv.2))) j = Option.map g (alookup l j) := by
  induction l with
  | nil => simp [alookup]
  | cons kv rest ih =>
    obtain ⟨k, w⟩ := kv
    by_cases hk : k = j <;> simp [alookup, hk, ih]

theorem aset_map {α β : Type} (g : α → β) (l : List (String × α)) (k : String) (f : α) :
    (aset l k f).map (fun kv => (kv.1, g kv.2)) =
      aset (l.map (fun kv => (kv.1, g kv.2))) k (g f) := by
  induction l with
  | nil => simp [aset]
  | cons kv rest ih =>
    obtain ⟨k0, w⟩ := kv
    by_cases hk : k0 = k <;> simp [aset, hk, ih]

theorem adel_map {α β : Type} (g : α → β) (l : List (String × α)) (k : String) :
    (adel l k).map (fun kv => (kv.1, g kv.2)) =
      adel (l.map (fun kv => (kv.1, g kv.2))) k := by
  induction l with
  | nil => simp [adel]
  | cons kv rest ih =>
    obtain ⟨k0, w⟩ := kv
    by_cases hk : k0 = k <;> simp [adel, hk, ih]

theorem alookup_aset_cases {α : Type} (l : List (String × α)) (k j : String) (f f2 : α)
    (h : alookup (aset l k f) j = some f2) :
    (j = k ∧ f2 = f) ∨ alookup l j = some f2 := by
  by_cases hjk : j = k
  · subst hjk
    rw [alookup_aset_self] at h
    exact Or.inl ⟨rfl, (Option.some_inj.mp h).symm⟩
  · rw [alookup_aset_ne l j k f hjk] at h
    exact Or.inr h

theorem adel_lookup_sub {α : Type} (l : List (String × α)) (k j : String) (f2 : α)
    (h : alookup (adel l k) j = some f2) : alookup l j = some f2 := by
  by_cases hjk : j = k
  · subst hjk
    rw [alookup_adel_self] at h
    cases h
  · rw [alookup_adel_ne l j k hjk] at h
    exact h

theorem pick_fold_map {α β : Type} (g : α → β) (p : Provider α) :
    ∀ (ks : List String) (acc : List (String × α)),
      (ks.foldl (pickStep p) acc).map (fun kv => (kv.1, g kv.2)) =
        ks.foldl (pickStep (p.mapFac g)) (acc.map (fun kv => (kv.1, g kv.2))) := by
  intro ks
  induction ks with
  | nil => intro acc; simp
  | cons k rest ih =>
    intro acc
    have hstep : pickStep (p.mapFac g) (acc.map (fun kv => (kv.1, g kv.2))) k =
        (pickStep p acc k).map (fun kv => (kv.1, g kv.2)) := by
      simp only [pickStep, Provider.mapFac, alookup_map]
      cases hk : alookup p.factories k with
      | none => simp
      | some f => simp [aset_map]
    simp only [List.foldl, hstep]
    exact ih (pickStep p acc k)

theorem omit_fold_map {α β : Type} (g : α → β) :
    ∀ (ks : List String) (acc : List (String × α)),
      (ks.foldl adel acc).map (fun kv => (kv.1, g kv.2)) =
        ks.foldl adel (acc.map (fun kv => (kv.1, g kv.2))) := by
  intro ks
  induction ks with
  | nil => intro acc; simp
  | cons k rest ih =>
    intro acc
    simp only [List.foldl, ← adel_map]
    exact ih (adel acc k)

theorem pick_fold_lookup {α : Type} (p : Provider α) (j : String) (f2 : α) :
    ∀ (ks : List String) (acc : List (String × α)),
      alookup (ks.foldl (pickStep p) acc) j = some f2 →
      alookup acc j = some f2 ∨ alookup p.factories j = some f2 := by
  intro ks
  induction ks with
  | nil => intro acc h; exact Or.inl h
  | cons k rest ih =>
    intro acc h
    simp only [List.foldl] at h
    cases ih (pickStep p acc k) h with
    | inr hp => exact Or.inr hp
    | inl hacc =>
      simp only [pickStep] at hacc
      cases hk : alookup p.factories k with
      | none => rw [hk] at hacc; exact Or.inl hacc
      | some f =>
        rw [hk] at hacc
        cases alookup_aset_cases acc k j f f2 hacc with
        | inl heq =>
          right
          rw [heq.1, hk, heq.2]
        | inr hrest => exact Or.inl hrest

theorem omit_fold_lookup {α : Type} (j : String) (f2 : α) :
    ∀ (ks : List String) (acc : List (String × α)),
      alookup (ks.foldl adel acc) j = some f2 → alookup acc j = some f2 := by
  intro ks
  induction ks with
  | nil => intro acc h; exact h
  | cons k rest ih =>
    intro acc h
    simp only [List.foldl] at h
    exact adel_lookup_sub acc k j f2 (ih (adel acc k) h)

theorem pick_fold_none {α : Type} (p : Provider α) (t : String)
    (hp : alookup p.factories t = none) :
    ∀ (ks : List String) (acc : List (String × α)),
      alookup acc t = none → alookup (ks.foldl (pickStep p) acc) t = none := by
  intro ks
  induction ks with
  | nil => intro acc hacc; exact hacc
  | cons k rest ih =>
    intro acc hacc
    simp only [List.foldl]
    apply ih
    simp only [pickStep]
    cases hk : alookup p.factories k with
    | none => exact hacc
    | some f =>
      have hkt : t ≠ k := by
        intro hh
        rw [hh, hk] at hp
        cases hp
      rw [alookup_aset_ne acc t k f hkt]
      exact hacc

theorem alookup_eq_none_of_not_mem {α : Type} (l : List (String × α)) (j : String)
    (h : j ∉ l.map Prod.fst) : alookup l j = none := by
  induction l with
  | nil => rfl
  | cons kv rest ih =>
    obtain ⟨k, w⟩ := kv
    simp only [List.map, List.mem_cons] at h
    push_neg at h
    simp [alookup, Ne.symm h.1, ih h.2]

theorem merge_fold_lookup {α : Type} (j : String) :
    ∀ (entries : List (String × α)) (acc : List (String × α)),
      (entries.map Prod.fst).Nodup →
      alookup (entries.foldl mergeStep acc) j =
        (match alookup entries j with
          | some f => some f
          | none => alookup acc j) := by
  intro entries
  induction entries with
  | nil => intro acc _; simp [alookup]
  | cons kv rest ih =>
    intro acc hnd
    obtain ⟨k0, f0⟩ := kv
    simp only [List.map, List.nodup_cons] at hnd
    simp only [List.foldl, mergeStep]
    rw [ih (aset acc k0 f0) hnd.2]
    by_cases hj : j = k0
    · subst hj
      rw [alookup_eq_none_of_not_mem rest j hnd.1]
      simp [alookup, alookup_aset_self]
    · have hk0 : (k0 = j) = False := eq_false (fun hh => hj hh.symm)
      cases hr : alookup rest j with
      | some f => simp [alookup, hr, hk0]
      | none => simp [alookup, hr, hk0, alookup_aset_ne acc j k0 f0 hj]

/- ### Claim theorems for the Provider, Result, defect and run models -/

/-- C3: running a program whose unresolved requirement set is non-empty fails
fast with an error naming exactly the missing identities, and the program's
computation is never executed (the `false` flag). Modelled from the spec,
because `Shell.run` in the source is an unimplemented stub. -/
theorem run_missing_requirements_fails_fast {T : Type} (p : ProgramModel T)
    (h : p.requirements ≠ []) :
    runModel p = (RunOutcome.missingTokens p.requirements, false) := by
  cases hreq : p.requirements with
  | nil => exact absurd hreq h
  | cons k rest => simp [runModel, hreq]

/-- C3 witness: a program requiring `Tracer` fails with that missing identity
without running its computation. -/
theorem run_missing_requirements_fails_fast_witness :
    runModel (⟨["Tracer"], 0⟩ : ProgramModel Nat) =
      (RunOutcome.missingTokens ["Tracer"], false) :=
  run_missing_requirements_fails_fast ⟨["Tracer"], 0⟩ (by simp)

/-- C4: for a Provider binding distinct tokens `a` and `b`,
`P.pick(a, b).omit(b)` resolves only `a`: getting `a` returns `a`'s factory
and getting `b` fails with the `Token "b" not provided` error. -/
theorem pick_omit_scopes {α : Type} (p : Provider α) (ka kb : String) (fa fb : α)
    (hne : ka ≠ kb) (ha : p.find? ka = some fa) (hb : p.find? kb = some fb) :
    ((p.pick [ka, kb]).omit [kb]).get ka = Except.ok fa ∧
    ((p.pick [ka, kb]).omit [kb]).get kb = Except.error (tokenNotProvidedMsg kb) := by
  have ha' : alookup p.factories ka = some fa := ha
  have hb' : alookup p.factories kb = some fb := hb
  have hpick : (p.pick [ka, kb]).factories = [(ka, fa), (kb, fb)] := by
    simp [Provider.pick, pickStep, ha', hb', aset, hne]
  have homit : ((p.pick [ka, kb]).omit [kb]).factories = [(ka, fa)] := by
    simp [Provider.omit, hpick, adel, hne]
  constructor
  · simp [Provider.get, Provider.find?, homit, alookup]
  · simp [Provider.get, Provider.find?, homit, alookup, hne]

/-- C4 witness: picking `a`, `b` then omitting `b` on a Provider binding
`a` to `1` and `b` to `2` yields `1` for `a` and not-provided for `b`. -/
theorem pick_omit_scopes_witness :
    ((Provider.pick (⟨[("a", 1), ("b", 2)]⟩ : Provider Nat) ["a", "b"]).omit ["b"]).get "a" =
      Except.ok 1 ∧
    ((Provider.pick (⟨[("a", 1), ("b", 2)]⟩ : Provider Nat) ["a", "b"]).omit ["b"]).get "b" =
      Except.error (tokenNotProvidedMsg "b") :=
  pick_omit_scopes ⟨[("a", 1), ("b", 2)]⟩ "a" "b" 1 2 (by decide) rfl rfl

/-- C5: the Provider mutators are pure over the factories: `provide`, `pick`
and `omit` commute with renaming every factory (`mapFac`), so none of them
ever inspects or invokes a factory, and every factory reachable in their
output is one of the inputs' factories. The receiver itself is an immutable
value in this embedding, matching the source's copy-on-write `new Map`. -/
theorem provider_mutators_preserve_factories {α β : Type} (g : α → β) (p : Provider α)
    (k : String) (f : α) (ks : List String) :
    (p.provide k f).mapFac g = (p.mapFac g).provide k (g f) ∧
    (p.pick ks).mapFac g = (p.mapFac g).pick ks ∧
    (p.omit ks).mapFac g = (p.mapFac g).omit ks ∧
    (∀ j f2, (p.provide k f).find? j = some f2 → f2 = f ∨ p.find? j = some f2) ∧
    (∀ j f2, (p.pick ks).find? j = some f2 → p.find? j = some f2) ∧
    (∀ j f2, (p.omit ks).find? j = some f2 → p.find? j = some f2) := by
  refine ⟨?_, ?_, ?_, ?_, ?_, ?_⟩
  · simp [Provider.provide, Provider.mapFac, aset_map]
  · simp only [Provider.pick, Provider.mapFac]
    rw [show ((⟨p.factories.map (fun kv => (kv.1, g kv.2))⟩ : Provider β)) = p.mapFac g from rfl]
    exact congrArg Provider.mk (pick_fold_map g p ks [])
  · simp only [Provider.omit, Provider.mapFac]
    exact congrArg Provider.mk (omit_fold_map g ks p.factories)
  · intro j f2 h
    simp only [Provider.provide, Provider.find?] at h
    cases alookup_aset_cases p.factories k j f f2 h with
    | inl heq => exact Or.inl heq.2
    | inr hrest => exact Or.inr hrest
  · intro j f2 h
    simp only [Provider.pick, Provider.find?] at h
    cases pick_fold_lookup p j f2 ks [] h with
    | inl habs => cases habs
    | inr hp => exact hp
  · intro j f2 h
    simp only [Provider.omit, Provider.find?] at h
    exact omit_fold_lookup j f2 ks p.factories h

/-- C5 witness: instantiating the purity theorem on a concrete Provider:
`provide` commutes with factory renaming, and a factory found after
`provide` is the provided one or an original one. -/
theorem provider_mutators_preserve_factories_witness :
    (Provider.mapFac (fun n => n + 1) ((⟨[("a", 1)]⟩ : Provider Nat).provide "b" 2) =
      (Provider.mapFac (fun n => n + 1) (⟨[("a", 1)]⟩ : Provider Nat)).provide "b" 3) ∧
    ((2 : Nat) = 2 ∨ (⟨[("a", 1)]⟩ : Provider Nat).find? "b" = some 2) := by
  have h := provider_mutators_preserve_factories (fun n => n + 1)
    (⟨[("a", 1)]⟩ : Provider Nat) "b" 2 ["a"]
  exact ⟨h.1, h.2.2.2.1 "b" 2 rfl⟩

/-- C6: when the same token key is bound twice the later binding wins:
`p.provide(t, f1).provide(t, f2)` resolves `t` to `f2`; and `merge(a, b)`
(modelled from the spec, absent from the source) unions the bindings keeping
`b`'s factory on every key bound in both. -/
theorem later_binding_wins {α : Type} (p a b : Provider α) (k j : String) (f1 f2 : α)
    (hb : (b.factories.map Prod.fst).Nodup) :
    ((p.provide k f1).provide k f2).find? k = some f2 ∧
    (mergeP a b).find? j =
      (match b.find? j with
        | some f => some f
        | none => a.find? j) := by
  constructor
  · simp only [Provider.provide, Provider.find?]
    exact alookup_aset_self (aset p.factories k f1) k f2
  · simp only [mergeP, Provider.find?]
    exact merge_fold_lookup j b.factories a.factories hb

/-- C6 witness: rebinding `t` picks the later factory, and merging keeps the
right-hand Provider's factory on the shared key. -/
theorem later_binding_wins_witness :
    (((⟨[]⟩ : Provider Nat).provide "t" 1).provide "t" 2).find? "t" = some 2 ∧
    (mergeP (⟨[("x", 1), ("y", 2)]⟩ : Provider Nat) ⟨[("y", 9)]⟩).find? "y" = some 9 := by
  have h := later_binding_wins (⟨[]⟩ : Provider Nat) ⟨[("x", 1), ("y", 2)]⟩ ⟨[("y", 9)]⟩
    "t" "y" 1 2 (by simp)
  exact ⟨h.1, h.2⟩

/-- C7 counterexample: `defect` applied to a plain `Error` with message
`boom` (non-enumerable `message`, no own enumerable properties) throws a
`Defect` whose `cause` is NOT the original error — the spread `{ ...error }`
copies no own enumerable properties, so the original is lost entirely. -/
theorem defect_error_cause_counterexample :
    (defect (DVal.verr (some "boom") none [])).cause ≠
      some (DVal.verr (some "boom") none []) := by
  simp [defect, typedErrorMk, alookup]

/-- C7 amended: `defect(x)` preserves `x` as the `cause` of the thrown
`Defect` (with message `Unexpected error`) exactly when `x` is not an `Error`
instance; when `x` is an `Error`, the `Defect` is built from `x`'s own
enumerable properties only, so for a standard `Error` (whose `message` and
`cause` are non-enumerable and which has no own enumerable properties) the
`Defect` carries neither `x` nor `x`'s message or cause. -/
theorem defect_wraps_amended :
    (∀ x : DVal, x.isError = false →
        (defect x).cause = some x ∧
        (defect x).message = some (DVal.vstr "Unexpected error")) ∧
    (∀ m c, (defect (DVal.verr m c [])).cause = none ∧
        (defect (DVal.verr m c [])).message = none) := by
  constructor
  · intro x hx
    cases x with
    | vnum n => simp [defect, typedErrorMk, alookup]
    | vstr s => simp [defect, typedErrorMk, alookup]
    | verr m c props => simp [DVal.isError] at hx
  · intro m c
    simp [defect, typedErrorMk, alookup]

/-- C7 amended witness: a non-Error value `3` is preserved as cause with the
`Unexpected error` message; a plain Error input loses message and cause. -/
theorem defect_wraps_amended_witness :
    ((defect (DVal.vnum 3)).cause = some (DVal.vnum 3) ∧
      (defect (DVal.vnum 3)).message = some (DVal.vstr "Unexpected error")) ∧
    ((defect (DVal.verr (some "m") none [])).cause = none ∧
      (defect (DVal.verr (some "m") none [])).message = none) :=
  ⟨defect_wraps_amended.1 (DVal.vnum 3) rfl, defect_wraps_amended.2 (some "m") none⟩

/-- C8: every Result is exactly one of Success or Failure — `isSuccess` and
`isFailure` always disagree — and a Success carries exactly its constructed
value while a Failure carries exactly its constructed error. -/
theorem result_exactly_one_case {T E : Type} (r : Result T E) (v : T) (e : E) :
    ((r.isSuccess = true ∧ r.isFailure = false) ∨
      (r.isSuccess = false ∧ r.isFailure = true)) ∧
    (Result.success ⟨v⟩ : Result T E).valueOf = some v ∧
    (Result.success ⟨v⟩ : Result T E).errorOf = none ∧
    (Result.failure ⟨e⟩ : Result T E).errorOf = some e ∧
    (Result.failure ⟨e⟩ : Result T E).valueOf = none := by
  refine ⟨?_, rfl, rfl, rfl, rfl⟩
  cases r with
  | success s => exact Or.inl ⟨rfl, rfl⟩
  | failure f => exact Or.inr ⟨rfl, rfl⟩

/-- C10: `pick` silently skips tokens without a binding: for any token `t`
unbound in `p`, `p.pick(...keys)` (a total operation) yields a Provider with
no binding for `t`, and getting `t` on the result fails with the
not-provided error rather than `pick` itself failing. -/
theorem pick_skips_unbound {α : Type} (p : Provider α) (keys : List String) (t : String)
    (h : p.find? t = none) :
    (p.pick keys).find? t = none ∧
    (p.pick keys).get t = Except.error (tokenNotProvidedMsg t) := by
  have h2 : (p.pick keys).find? t = none := by
    simp only [Provider.pick, Provider.find?]
    exact pick_fold_none p t h keys [] rfl
  refine ⟨h2, ?_⟩
  simp [Provider.get, h2]

/-- C10 witness: picking the unbound token `z` succeeds and leaves `z`
unresolvable on the result. -/
theorem pick_skips_unbound_witness :
    (Provider.pick (⟨[("a", 1)]⟩ : Provider Nat) ["z"]).find? "z" = none ∧
    (Provider.pick (⟨[("a", 1)]⟩ : Provider Nat) ["z"]).get "z" =
      Except.error (tokenNotProvidedMsg "z") :=
  pick_skips_unbound ⟨[("a", 1)]⟩ ["z"] "z" rfl

end Thunx
